import Mathlib

/-!
Verification of the whitespace normalization library (`ender.rs` / `spacer.rs`).

The Rust code is embedded shallowly: the UTF-8 decoded character stream
becomes a `List Char`, the output byte sink becomes a `List Char` (each
written character re-encodes to its UTF-8 bytes verbatim, so character-level
equality of the sink contents is faithful for valid inputs), and the
imperative single-pass loops become tail-recursive functions with the
loop's mutable locals passed as explicit accumulator arguments.
-/

namespace Whitespace

/-- Types of line endings (`EndOfLine` in `ender.rs`). -/
inductive EndOfLine : Type
  | Cr : EndOfLine
  | Lf : EndOfLine
  | CrLf : EndOfLine
deriving DecidableEq

/-- File line information (`EolInfo` in `ender.rs`). -/
structure EolInfo : Type where
  cr : Nat
  lf : Nat
  crlf : Nat
  num_lines : Nat
deriving DecidableEq

/-- Function `EolInfo::get_common_eol` from `ender.rs`: the two sequential mutations of
the locals `n` and `eol` are embedded as successive `let` bindings. -/
def EolInfo.get_common_eol (i : EolInfo) : EndOfLine :=
  let n1 := i.lf
  let eol1 := EndOfLine.Lf
  let n2 := if i.crlf > n1 then i.crlf else n1
  let eol2 := if i.crlf > n1 then EndOfLine.CrLf else eol1
  if i.cr > n2 then EndOfLine.Cr else eol2

/-- Function `EolInfo::num_endings` from `ender.rs`. -/
def EolInfo.num_endings (i : EolInfo) : Nat :=
  (if i.cr > 0 then 1 else 0) + (if i.lf > 0 then 1 else 0) +
    (if i.crlf > 0 then 1 else 0)

/-- The loop of `read_eol_info` from `ender.rs`.  The mutable `eol_info`
accumulator is an explicit argument; the decoder's one-character peek is the
nested match on the tail of the list. -/
def read_eol_info_go (info : EolInfo) : List Char → EolInfo
  | [] => info
  | c :: rest =>
    if c = '\r' then
      match rest with
      | '\n' :: rest2 =>
        read_eol_info_go
          { info with crlf := info.crlf + 1, num_lines := info.num_lines + 1 } rest2
      | [] =>
        read_eol_info_go
          { info with cr := info.cr + 1, num_lines := info.num_lines + 1 } []
      | c2 :: rest2 =>
        read_eol_info_go
          { info with cr := info.cr + 1, num_lines := info.num_lines + 1 } (c2 :: rest2)
    else if c = '\n' then
      read_eol_info_go
        { info with lf := info.lf + 1, num_lines := info.num_lines + 1 } rest
    else
      read_eol_info_go info rest

/-- Function `read_eol_info` from `ender.rs`: counters start at zero, `num_lines` at 1. -/
def read_eol_info (input : List Char) : EolInfo :=
  read_eol_info_go { cr := 0, lf := 0, crlf := 0, num_lines := 1 } input

/-- The newline byte sequence written for each target kind
(`newline_chars` in `write_new_eols`). -/
def eol_chars : EndOfLine → List Char
  | EndOfLine.Cr => ['\r']
  | EndOfLine.Lf => ['\n']
  | EndOfLine.CrLf => ['\r', '\n']

/-- The loop of `write_new_eols` from `ender.rs`: returns the characters
written to the sink together with the final `num_lines`. -/
def write_new_eols_go (nl : List Char) (num_lines : Nat) :
    List Char → List Char × Nat
  | [] => ([], num_lines)
  | c :: rest =>
    if c = '\r' then
      match rest with
      | '\n' :: rest2 =>
        let r := write_new_eols_go nl (num_lines + 1) rest2
        (nl ++ r.1, r.2)
      | [] =>
        let r := write_new_eols_go nl (num_lines + 1) ([] : List Char)
        (nl ++ r.1, r.2)
      | c2 :: rest2 =>
        let r := write_new_eols_go nl (num_lines + 1) (c2 :: rest2)
        (nl ++ r.1, r.2)
    else if c = '\n' then
      let r := write_new_eols_go nl (num_lines + 1) rest
      (nl ++ r.1, r.2)
    else
      let r := write_new_eols_go nl num_lines rest
      (c :: r.1, r.2)

/-- Function `write_new_eols` from `ender.rs`: the sink contents and the line count
(the final `flush` has no observable effect on the modelled sink). -/
def write_new_eols (input : List Char) (new_eol : EndOfLine) : List Char × Nat :=
  write_new_eols_go (eol_chars new_eol) 1 input

/-- Types of line beginnings (`BeginningOfLine` in `spacer.rs`):
`Tabs tab_size round_down` or `Spaces tab_size`. -/
inductive BeginningOfLine : Type
  | Tabs : Nat → Bool → BeginningOfLine
  | Spaces : Nat → BeginningOfLine
deriving DecidableEq

/-- Information about line beginnings (`BolInfo` in `spacer.rs`). -/
structure BolInfo : Type where
  none : Nat
  spaces : Nat
  tabs : Nat
  mixed : Nat
deriving DecidableEq

/-- Function `BolInfo::get_common_bol` from `spacer.rs`: note that the supplied
`tab_size` is passed through without any clamping. -/
def BolInfo.get_common_bol (i : BolInfo) (tab_size : Nat) (round_down : Bool) :
    BeginningOfLine :=
  if i.tabs > i.spaces then BeginningOfLine.Tabs tab_size round_down
  else BeginningOfLine.Spaces tab_size

/-- The classification chain of `read_bol_info` from `spacer.rs` (the body of
its classify branch, hoisted): both counters zero is `none`, both positive is
`mixed`, otherwise whichever counter is positive. -/
def bol_classify (num_spaces num_tabs : Nat) (info : BolInfo) : BolInfo :=
  if num_spaces = 0 ∧ num_tabs = 0 then { info with none := info.none + 1 }
  else if num_spaces > 0 ∧ num_tabs > 0 then { info with mixed := info.mixed + 1 }
  else if num_spaces > 0 then { info with spaces := info.spaces + 1 }
  else { info with tabs := info.tabs + 1 }

/-- The loop of `read_bol_info` from `spacer.rs`: the mutable locals `at_bol`,
`num_spaces`, `num_tabs` and `bol_info` are explicit accumulators.  On a
non-whitespace character seen at beginning of line the run is classified and
`at_bol` is set to `false` (also when that character is a newline). -/
def read_bol_info_go (at_bol : Bool) (num_spaces num_tabs : Nat) (info : BolInfo) :
    List Char → BolInfo
  | [] => info
  | c :: rest =>
    if at_bol then
      if c = ' ' then read_bol_info_go true (num_spaces + 1) num_tabs info rest
      else if c = '\t' then read_bol_info_go true num_spaces (num_tabs + 1) info rest
      else
        read_bol_info_go false num_spaces num_tabs (bol_classify num_spaces num_tabs info) rest
    else if c = '\n' then
      read_bol_info_go true 0 0 info rest
    else
      read_bol_info_go at_bol num_spaces num_tabs info rest

/-- Function `read_bol_info` from `spacer.rs`. -/
def read_bol_info (input : List Char) : BolInfo :=
  read_bol_info_go true 0 0 { none := 0, spaces := 0, tabs := 0, mixed := 0 } input

/-- The `untabify` closure from `write_new_bols` in `spacer.rs`: the growing
output string `t` is the accumulator; each tab pushes
`tab_size - (t.len() % tab_size)` spaces. -/
def untabify_go (tab_size : Nat) (t : List Char) : List Char → List Char
  | [] => t
  | c :: rest =>
    if c = '\t' then
      untabify_go tab_size (t ++ List.replicate (tab_size - t.length % tab_size) ' ') rest
    else
      untabify_go tab_size (t ++ [c]) rest

/-- The `untabify` closure applied to a whole run (accumulator starts empty). -/
def untabify (tab_size : Nat) (s : List Char) : List Char :=
  untabify_go tab_size [] s

/-- The `tabify` closure from `write_new_bols` in `spacer.rs`: for each
character, `num_spaces` is bumped when it is a space, then a tab is emitted and
the counter reset whenever `num_spaces % tab_size == 0`; at the end a positive
remainder is either pushed verbatim as spaces (`round_down == false`) or
discarded (`round_down == true`). -/
def tabify_go (tab_size : Nat) (round_down : Bool) (num_spaces : Nat) (t : List Char) :
    List Char → List Char × Nat
  | [] =>
    if num_spaces > 0 then
      if round_down = false then (t ++ List.replicate num_spaces ' ', num_spaces)
      else (t, 0)
    else (t, num_spaces)
  | c :: rest =>
    let ns := if c = ' ' then num_spaces + 1 else num_spaces
    if ns % tab_size = 0 then tabify_go tab_size round_down 0 (t ++ ['\t']) rest
    else tabify_go tab_size round_down ns t rest

/-- The `tabify` closure applied to a whole run. -/
def tabify (tab_size : Nat) (round_down : Bool) (s : List Char) : List Char × Nat :=
  tabify_go tab_size round_down 0 [] s

/-- Result of the `write_new_bols` loop: sink contents, the statistics, and the
final values of the loop's `at_bol` flag and run buffer `s` (exposed so that
end-of-stream behaviour can be stated). -/
structure WnbResult : Type where
  out : List Char
  info : BolInfo
  at_bol : Bool
  s : List Char
deriving DecidableEq

/-- The run-emission step of `write_new_bols` from `spacer.rs` (the body of
the classify branch, hoisted): an empty buffer emits nothing and counts
`none`; a non-empty buffer is untabified, then for a `Tabs` target tabified —
counting `mixed` when `tabify` reports a positive space remainder and `tabs`
otherwise — while a `Spaces` target emits the untabified run and counts
`spaces`. -/
def wnb_emit (tab_size : Nat) (round_down is_tabs : Bool) (s : List Char)
    (info : BolInfo) : List Char × BolInfo :=
  if s.length = 0 then ([], { info with none := info.none + 1 })
  else
    let u := untabify tab_size s
    if is_tabs then
      let tr := tabify tab_size round_down u
      (tr.1,
        if tr.2 > 0 then { info with mixed := info.mixed + 1 }
        else { info with tabs := info.tabs + 1 })
    else (u, { info with spaces := info.spaces + 1 })

/-- The loop of `write_new_bols` from `spacer.rs`.  At a non-whitespace
character seen at beginning of line, an empty buffer counts as `none` and
nothing is emitted; a non-empty buffer is untabified, then (for a `Tabs`
target) tabified — classifying as `mixed` exactly when `tabify` reports a
positive space remainder, as `tabs` otherwise, and as `spaces` for a `Spaces`
target — and the resulting run is written, followed by the character itself.
A newline keeps `at_bol` true and clears the buffer; any other terminator
leaves beginning-of-line mode (the buffer then holds the emitted run, exactly
as the Rust local `s` does, and is cleared on the next newline). -/
def write_new_bols_go (tab_size : Nat) (round_down : Bool) (is_tabs : Bool)
    (at_bol : Bool) (s : List Char) (info : BolInfo) : List Char → WnbResult
  | [] => { out := [], info := info, at_bol := at_bol, s := s }
  | c :: rest =>
    if at_bol then
      if c = ' ' ∨ c = '\t' then
        write_new_bols_go tab_size round_down is_tabs true (s ++ [c]) info rest
      else
        let er := wnb_emit tab_size round_down is_tabs s info
        if c = '\n' then
          let r := write_new_bols_go tab_size round_down is_tabs true [] er.2 rest
          { r with out := er.1 ++ c :: r.out }
        else
          let r := write_new_bols_go tab_size round_down is_tabs false
            (if s.length = 0 then s else er.1) er.2 rest
          { r with out := er.1 ++ c :: r.out }
    else if c = '\n' then
      let r := write_new_bols_go tab_size round_down is_tabs true [] info rest
      { r with out := c :: r.out }
    else
      let r := write_new_bols_go tab_size round_down is_tabs false s info rest
      { r with out := c :: r.out }

/-- Function `write_new_bols` from `spacer.rs` with its final loop state
exposed: the supplied tab size is clamped with `max(1, tab_size)`, the
round-down flag is forced to `false` for a `Spaces` target. -/
def write_new_bols_state (input : List Char) (new_bol : BeginningOfLine) : WnbResult :=
  let ts := match new_bol with
    | BeginningOfLine.Spaces t => max 1 t
    | BeginningOfLine.Tabs t _ => max 1 t
  let rd := match new_bol with
    | BeginningOfLine.Spaces _ => false
    | BeginningOfLine.Tabs _ r => r
  let it := match new_bol with
    | BeginningOfLine.Spaces _ => false
    | BeginningOfLine.Tabs _ _ => true
  write_new_bols_go ts rd it true []
    { none := 0, spaces := 0, tabs := 0, mixed := 0 } input

/-- Function `write_new_bols` from `spacer.rs`: sink contents and statistics
(the final `flush` has no observable effect on the modelled sink). -/
def write_new_bols (input : List Char) (new_bol : BeginningOfLine) :
    List Char × BolInfo :=
  ((write_new_bols_state input new_bol).out, (write_new_bols_state input new_bol).info)

/-- Total number of classified lines recorded in a `BolInfo`. -/
def bol_total (i : BolInfo) : Nat :=
  i.none + i.spaces + i.tabs + i.mixed

/-- Spec-side state machine of §4.2 for the scan (refinement comparison):
tracks the `atBeginningOfLine` flag over the input.  At beginning of line any
non space/tab character — a newline included — leaves beginning-of-line mode;
in-line, a newline re-enters it. -/
def spec_at_bol (at_bol : Bool) : List Char → Bool
  | [] => at_bol
  | c :: rest =>
    if at_bol then
      if c = ' ' ∨ c = '\t' then spec_at_bol true rest
      else spec_at_bol false rest
    else if c = '\n' then spec_at_bol true rest
    else spec_at_bol false rest

/-- Spec-side observer (refinement comparison): whether some newline of the
input is consumed while the §4.2 scan machine is at beginning of line, i.e.
whether some line consists solely of leading whitespace. -/
def spec_nl_at_bol (at_bol : Bool) : List Char → Bool
  | [] => false
  | c :: rest =>
    if at_bol then
      if c = ' ' ∨ c = '\t' then spec_nl_at_bol true rest
      else if c = '\n' then true
      else spec_nl_at_bol false rest
    else if c = '\n' then spec_nl_at_bol true rest
    else spec_nl_at_bol false rest

/-- Spec-side column count of the untabify stage (§4.2): each tab contributes
`tabWidth - (currentOutputColumnCount mod tabWidth)` columns, every other
character one column. -/
def untabify_spec_cols (tab_size : Nat) (col : Nat) (s : List Char) : Nat :=
  s.foldl (fun t c => if c = '\t' then t + (tab_size - t % tab_size) else t + 1) col

/-! ## Helper lemmas: line-ending engine -/

/-- Each recognized ending bumps `num_lines` and exactly one of the three
counters, so the loop preserves the difference between `num_lines` and the
counter sum. -/
lemma read_eol_info_go_sum (l : List Char) (info : EolInfo) :
    (read_eol_info_go info l).num_lines + info.cr + info.lf + info.crlf
      = info.num_lines + (read_eol_info_go info l).cr + (read_eol_info_go info l).lf
        + (read_eol_info_go info l).crlf := by
  induction info, l using read_eol_info_go.induct <;>
    rw [read_eol_info_go.eq_def] <;> simp_all <;> omega

/-- The write loop and the scan loop recognize the same endings, so the line
count returned by `write_new_eols_go` tracks the scan's `num_lines`. -/
lemma write_new_eols_go_num_lines (nl : List Char) (n : Nat) (l : List Char)
    (info : EolInfo) :
    (write_new_eols_go nl n l).2 + info.num_lines = (read_eol_info_go info l).num_lines + n := by
  induction info, l using read_eol_info_go.induct generalizing n with
  | case1 info =>
    rw [write_new_eols_go.eq_def, read_eol_info_go.eq_def]
    simp
    omega
  | case2 info rest2 ih =>
    rw [write_new_eols_go.eq_def, read_eol_info_go.eq_def]
    have h := ih (n + 1)
    simp at h ⊢
    omega
  | case3 info ih =>
    rw [write_new_eols_go.eq_def, read_eol_info_go.eq_def]
    have h := ih (n + 1)
    simp at h ⊢
    omega
  | case4 info c2 rest2 hne ih =>
    rw [write_new_eols_go.eq_def, read_eol_info_go.eq_def]
    have hc2 : ¬(c2 = '\n') := fun hx => hne hx
    have h := ih (n + 1)
    simp [hc2] at h ⊢
    omega
  | case5 info rest hlf ih =>
    rw [write_new_eols_go.eq_def, read_eol_info_go.eq_def]
    have h := ih (n + 1)
    simp at h ⊢
    omega
  | case6 info c rest h1 h2 ih =>
    rw [write_new_eols_go.eq_def, read_eol_info_go.eq_def]
    have h := ih n
    simp [h1, h2] at h ⊢
    omega

/-! ## Helper lemmas: indentation engine -/

/-- On a run of spaces and tabs, the `untabify` closure builds exactly the
all-spaces expansion whose length is the spec's column count. -/
lemma untabify_go_replicate (w : Nat) :
    ∀ (s : List Char) (col : Nat), (∀ c ∈ s, c = ' ' ∨ c = '\t') →
      untabify_go w (List.replicate col ' ') s
        = List.replicate (untabify_spec_cols w col s) ' '
  | [], col, _ => by simp [untabify_go, untabify_spec_cols]
  | c :: rest, col, h => by
    have hrest : ∀ x ∈ rest, x = ' ' ∨ x = '\t' :=
      fun x hx => h x (List.mem_cons_of_mem _ hx)
    rcases h c (List.mem_cons_self c rest) with hc | hc <;> subst hc
    · have ih := untabify_go_replicate w rest (col + 1) hrest
      have hrep : List.replicate col ' ' ++ [' '] = List.replicate (col + 1) ' ' :=
        (List.replicate_succ' col ' ').symm
      simp only [untabify_go, untabify_spec_cols, List.foldl_cons] at ih ⊢
      simp only [if_neg (by decide : ¬(' ' = '\t')), hrep] at ih ⊢
      exact ih
    · have ih := untabify_go_replicate w rest (col + (w - col % w)) hrest
      have hrep : List.replicate col ' ' ++ List.replicate (w - col % w) ' '
          = List.replicate (col + (w - col % w)) ' ' :=
        (List.replicate_add col (w - col % w) ' ').symm
      simp only [untabify_go, untabify_spec_cols, List.foldl_cons] at ih ⊢
      simp only [if_pos rfl, List.length_replicate, hrep] at ih ⊢
      exact ih

/-- The `untabify` closure on a whitespace run produces the spec's all-spaces
expansion. -/
lemma untabify_replicate (w : Nat) (s : List Char)
    (h : ∀ c ∈ s, c = ' ' ∨ c = '\t') :
    untabify w s = List.replicate (untabify_spec_cols w 0 s) ' ' := by
  have := untabify_go_replicate w s 0 h
  simpa [untabify] using this

/-- On an all-spaces input the `tabify` closure emits one tab per `w`
consumed spaces and finishes with the division remainder, kept or dropped
according to `round_down`. -/
lemma tabify_go_replicate (w : Nat) (rd : Bool) (hw : 0 < w) :
    ∀ (k ns : Nat) (t : List Char), ns < w →
      tabify_go w rd ns t (List.replicate k ' ')
        = (t ++ List.replicate ((ns + k) / w) '\t'
             ++ (if rd = false then List.replicate ((ns + k) % w) ' ' else []),
           if rd = false then (ns + k) % w else 0)
  | 0, ns, t, hns => by
    have h1 : ns / w = 0 := Nat.div_eq_of_lt hns
    have h2 : ns % w = ns := Nat.mod_eq_of_lt hns
    rcases Nat.eq_zero_or_pos ns with h0 | h0
    · subst h0
      cases rd <;> simp [tabify_go]
    · cases rd <;> simp [tabify_go, h0, h1, h2, Nat.pos_iff_ne_zero.mp h0]
  | k + 1, ns, t, hns => by
    rw [List.replicate_succ]
    by_cases hmod : (ns + 1) % w = 0
    · have hwns : ns + 1 = w := by
        have hdvd : w ∣ ns + 1 := Nat.dvd_of_mod_eq_zero hmod
        have hle : w ≤ ns + 1 := Nat.le_of_dvd (Nat.succ_pos ns) hdvd
        omega
      have ih := tabify_go_replicate w rd hw k 0 (t ++ ['\t']) hw
      simp only [Nat.zero_add] at ih
      have e1 : ns + (k + 1) = k + w := by omega
      have e2 : (k + w) / w = k / w + 1 := Nat.add_div_right k hw
      have e3 : (k + w) % w = k % w := Nat.add_mod_right k w
      simp [tabify_go, hmod]
      rw [ih, e1, e2, e3, List.replicate_succ]
      simp
    · have hlt : ns + 1 < w := by
        rcases Nat.lt_or_ge (ns + 1) w with h | h
        · exact h
        · exfalso
          have : ns + 1 = w := by omega
          rw [this] at hmod
          exact hmod (Nat.mod_self w)
      have ih := tabify_go_replicate w rd hw k (ns + 1) t hlt
      have e1 : ns + 1 + k = ns + (k + 1) := by omega
      rw [e1] at ih
      simp [tabify_go, hmod]
      simpa using ih

/-- The `tabify` closure on the all-spaces expansion of length `n`. -/
lemma tabify_replicate (w : Nat) (rd : Bool) (n : Nat) (hw : 0 < w) :
    tabify w rd (List.replicate n ' ')
      = (List.replicate (n / w) '\t'
           ++ (if rd = false then List.replicate (n % w) ' ' else []),
         if rd = false then n % w else 0) := by
  have h := tabify_go_replicate w rd hw n 0 [] hw
  simpa [tabify] using h

/-- One-step unfolding of the scan loop: a space at beginning of line. -/
lemma rb_step_space (ns nt : Nat) (info : BolInfo) (rest : List Char) :
    read_bol_info_go true ns nt info (' ' :: rest)
      = read_bol_info_go true (ns + 1) nt info rest := by
  rw [read_bol_info_go.eq_def]
  simp

/-- One-step unfolding of the scan loop: a tab at beginning of line. -/
lemma rb_step_tab (ns nt : Nat) (info : BolInfo) (rest : List Char) :
    read_bol_info_go true ns nt info ('\t' :: rest)
      = read_bol_info_go true ns (nt + 1) info rest := by
  rw [read_bol_info_go.eq_def]
  simp

/-- One-step unfolding of the scan loop: any other character at beginning of
line classifies the run and leaves beginning-of-line mode. -/
lemma rb_step_classify (ns nt : Nat) (info : BolInfo) (c : Char) (rest : List Char)
    (h1 : c ≠ ' ') (h2 : c ≠ '\t') :
    read_bol_info_go true ns nt info (c :: rest)
      = read_bol_info_go false ns nt (bol_classify ns nt info) rest := by
  rw [read_bol_info_go.eq_def]
  simp [h1, h2]

/-- One-step unfolding of the scan loop: a newline while in a line re-enters
beginning-of-line mode and resets the counters. -/
lemma rb_step_nl_inline (ns nt : Nat) (info : BolInfo) (rest : List Char) :
    read_bol_info_go false ns nt info ('\n' :: rest)
      = read_bol_info_go true 0 0 info rest := by
  rw [read_bol_info_go.eq_def]
  simp

/-- One-step unfolding of the scan loop: any other character while in a line
is skipped. -/
lemma rb_step_other_inline (ns nt : Nat) (info : BolInfo) (c : Char) (rest : List Char)
    (h : c ≠ '\n') :
    read_bol_info_go false ns nt info (c :: rest)
      = read_bol_info_go false ns nt info rest := by
  rw [read_bol_info_go.eq_def]
  simp [h]

/-- Classification increments exactly one counter. -/
lemma bol_classify_total (ns nt : Nat) (info : BolInfo) :
    bol_total (bol_classify ns nt info) = bol_total info + 1 := by
  unfold bol_classify bol_total
  split_ifs <;> simp <;> omega

/-- The emission step increments exactly one counter. -/
lemma wnb_emit_total (w : Nat) (rd it : Bool) (s : List Char) (info : BolInfo) :
    bol_total (wnb_emit w rd it s info).2 = bol_total info + 1 := by
  unfold wnb_emit bol_total
  split_ifs <;> simp <;> (try split_ifs <;> simp) <;> omega

/-- One-step unfolding of the rewrite loop: a space or tab at beginning of
line is buffered. -/
lemma wnb_step_ws (w : Nat) (rd it : Bool) (s : List Char) (info : BolInfo)
    (c : Char) (rest : List Char) (hc : c = ' ' ∨ c = '\t') :
    write_new_bols_go w rd it true s info (c :: rest)
      = write_new_bols_go w rd it true (s ++ [c]) info rest := by
  rw [write_new_bols_go.eq_def]
  simp [hc]

/-- One-step unfolding of the rewrite loop: a newline at beginning of line
emits the rewritten run and the newline, clears the buffer and stays at
beginning of line. -/
lemma wnb_step_nl_bol (w : Nat) (rd it : Bool) (s : List Char) (info : BolInfo)
    (rest : List Char) :
    write_new_bols_go w rd it true s info ('\n' :: rest)
      = { write_new_bols_go w rd it true [] (wnb_emit w rd it s info).2 rest with
            out := (wnb_emit w rd it s info).1
              ++ '\n' :: (write_new_bols_go w rd it true [] (wnb_emit w rd it s info).2 rest).out } := by
  rw [write_new_bols_go.eq_def]
  simp

/-- One-step unfolding of the rewrite loop: any other non-whitespace character
at beginning of line emits the rewritten run and the character and leaves
beginning-of-line mode. -/
lemma wnb_step_other_bol (w : Nat) (rd it : Bool) (s : List Char) (info : BolInfo)
    (c : Char) (rest : List Char) (h1 : c ≠ ' ') (h2 : c ≠ '\t') (h3 : c ≠ '\n') :
    write_new_bols_go w rd it true s info (c :: rest)
      = { write_new_bols_go w rd it false
            (if s.length = 0 then s else (wnb_emit w rd it s info).1)
            (wnb_emit w rd it s info).2 rest with
            out := (wnb_emit w rd it s info).1
              ++ c :: (write_new_bols_go w rd it false
                  (if s.length = 0 then s else (wnb_emit w rd it s info).1)
                  (wnb_emit w rd it s info).2 rest).out } := by
  rw [write_new_bols_go.eq_def]
  simp [h1, h2, h3]

/-- One-step unfolding of the rewrite loop: a newline while in a line is
copied and re-enters beginning-of-line mode with a cleared buffer. -/
lemma wnb_step_nl_inline (w : Nat) (rd it : Bool) (s : List Char) (info : BolInfo)
    (rest : List Char) :
    write_new_bols_go w rd it false s info ('\n' :: rest)
      = { write_new_bols_go w rd it true [] info rest with
            out := '\n' :: (write_new_bols_go w rd it true [] info rest).out } := by
  rw [write_new_bols_go.eq_def]
  simp

/-- One-step unfolding of the rewrite loop: any other character while in a
line is copied verbatim. -/
lemma wnb_step_other_inline (w : Nat) (rd it : Bool) (s : List Char) (info : BolInfo)
    (c : Char) (rest : List Char) (h : c ≠ '\n') :
    write_new_bols_go w rd it false s info (c :: rest)
      = { write_new_bols_go w rd it false s info rest with
            out := c :: (write_new_bols_go w rd it false s info rest).out } := by
  rw [write_new_bols_go.eq_def]
  simp [h]

/-- While at beginning of line, a whitespace prefix of the input is simply
moved into the run buffer: nothing is written and nothing is classified. -/
lemma wnb_go_ws_buffered (w : Nat) (rd it : Bool) :
    ∀ (run s : List Char) (info : BolInfo) (rest : List Char),
      (∀ c ∈ run, c = ' ' ∨ c = '\t') →
      write_new_bols_go w rd it true s info (run ++ rest)
        = write_new_bols_go w rd it true (s ++ run) info rest
  | [], s, info, rest, _ => by simp
  | c :: run2, s, info, rest, h => by
    have hc := h c (List.mem_cons_self c run2)
    have h2 : ∀ x ∈ run2, x = ' ' ∨ x = '\t' :=
      fun x hx => h x (List.mem_cons_of_mem _ hx)
    rw [List.cons_append, wnb_step_ws w rd it s info c _ hc,
        wnb_go_ws_buffered w rd it run2 (s ++ [c]) info rest h2]
    simp

/-- If the rewrite loop ends a prefix at beginning of line, appending a final
all-whitespace run does not change the written output: the run is buffered
and then dropped at end of stream. -/
lemma wnb_go_out_stable (w : Nat) (rd it : Bool) (run : List Char)
    (hrun : ∀ c ∈ run, c = ' ' ∨ c = '\t') :
    ∀ (l : List Char) (ab : Bool) (s : List Char) (info : BolInfo),
      (write_new_bols_go w rd it ab s info l).at_bol = true →
      (write_new_bols_go w rd it ab s info (l ++ run)).out
        = (write_new_bols_go w rd it ab s info l).out
  | [], ab, s, info, hab => by
    simp [write_new_bols_go] at hab
    subst hab
    rw [List.nil_append,
        show (run : List Char) = run ++ [] from (List.append_nil run).symm,
        wnb_go_ws_buffered w rd it run s info [] hrun]
    simp [write_new_bols_go]
  | c :: rest, ab, s, info, hab => by
    cases ab with
    | true =>
      by_cases hws : c = ' ' ∨ c = '\t'
      · rw [wnb_step_ws w rd it s info c rest hws] at hab
        rw [List.cons_append, wnb_step_ws w rd it s info c _ hws,
            wnb_go_out_stable w rd it run hrun rest true (s ++ [c]) info hab,
            wnb_step_ws w rd it s info c rest hws]
      · push_neg at hws
        by_cases hnl : c = '\n'
        · subst hnl
          rw [wnb_step_nl_bol w rd it s info rest] at hab
          simp only [] at hab
          rw [List.cons_append, wnb_step_nl_bol w rd it s info (rest ++ run),
              wnb_step_nl_bol w rd it s info rest]
          simp only []
          rw [wnb_go_out_stable w rd it run hrun rest true []
                (wnb_emit w rd it s info).2 hab]
        · rw [wnb_step_other_bol w rd it s info c rest hws.1 hws.2 hnl] at hab
          simp only [] at hab
          rw [List.cons_append, wnb_step_other_bol w rd it s info c _ hws.1 hws.2 hnl,
              wnb_step_other_bol w rd it s info c rest hws.1 hws.2 hnl]
          simp only []
          rw [wnb_go_out_stable w rd it run hrun rest false
                (if s.length = 0 then s else (wnb_emit w rd it s info).1)
                (wnb_emit w rd it s info).2 hab]
    | false =>
      by_cases hnl : c = '\n'
      · subst hnl
        rw [wnb_step_nl_inline w rd it s info rest] at hab
        simp only [] at hab
        rw [List.cons_append, wnb_step_nl_inline w rd it s info (rest ++ run),
            wnb_step_nl_inline w rd it s info rest]
        simp only []
        rw [wnb_go_out_stable w rd it run hrun rest true [] info hab]
      · rw [wnb_step_other_inline w rd it s info c rest hnl] at hab
        simp only [] at hab
        rw [List.cons_append, wnb_step_other_inline w rd it s info c _ hnl,
            wnb_step_other_inline w rd it s info c rest hnl]
        simp only []
        rw [wnb_go_out_stable w rd it run hrun rest false s info hab]

/-- Coupling of the scan and the rewrite: as long as no newline is consumed
at beginning of line, both loops classify a line at exactly the same steps,
so their classification totals advance identically. -/
lemma read_write_total_couple (w : Nat) (rd it : Bool) :
    ∀ (l : List Char) (ab : Bool) (ns nt : Nat) (s : List Char) (ir iw : BolInfo),
      spec_nl_at_bol ab l = false →
      bol_total (read_bol_info_go ab ns nt ir l) + bol_total iw
        = bol_total ((write_new_bols_go w rd it ab s iw l).info) + bol_total ir
  | [], ab, ns, nt, s, ir, iw, _ => by
    simp [read_bol_info_go, write_new_bols_go]
    omega
  | c :: rest, ab, ns, nt, s, ir, iw, h => by
    cases ab with
    | true =>
      by_cases hsp : c = ' '
      · subst hsp
        rw [rb_step_space, wnb_step_ws w rd it s iw ' ' rest (Or.inl rfl)]
        apply read_write_total_couple w rd it rest true (ns + 1) nt (s ++ [' ']) ir iw
        simpa [spec_nl_at_bol] using h
      · by_cases htb : c = '\t'
        · subst htb
          rw [rb_step_tab, wnb_step_ws w rd it s iw '\t' rest (Or.inr rfl)]
          apply read_write_total_couple w rd it rest true ns (nt + 1) (s ++ ['\t']) ir iw
          simpa [spec_nl_at_bol] using h
        · by_cases hnl : c = '\n'
          · subst hnl
            simp [spec_nl_at_bol, hsp, htb] at h
          · rw [rb_step_classify ns nt ir c rest hsp htb,
                wnb_step_other_bol w rd it s iw c rest hsp htb hnl]
            simp only []
            have ih := read_write_total_couple w rd it rest false ns nt
              (if s.length = 0 then s else (wnb_emit w rd it s iw).1)
              (bol_classify ns nt ir) (wnb_emit w rd it s iw).2
              (by simpa [spec_nl_at_bol, hsp, htb, hnl] using h)
            have e1 := bol_classify_total ns nt ir
            have e2 := wnb_emit_total w rd it s iw
            omega
    | false =>
      by_cases hnl : c = '\n'
      · subst hnl
        rw [rb_step_nl_inline, wnb_step_nl_inline w rd it s iw rest]
        simp only []
        have ih := read_write_total_couple w rd it rest true 0 0 [] ir iw
          (by simpa [spec_nl_at_bol] using h)
        omega
      · rw [rb_step_other_inline ns nt ir c rest hnl,
            wnb_step_other_inline w rd it s iw c rest hnl]
        simp only []
        have ih := read_write_total_couple w rd it rest false ns nt s ir iw
          (by simpa [spec_nl_at_bol, hnl] using h)
        omega

/-- On inputs with no newline at beginning of line, the scan's classification
total is the number of newlines plus one when the stream ends in a line (the
trailing segment reached a non-whitespace character). -/
lemma read_bol_total_inv :
    ∀ (l : List Char) (ab : Bool) (ns nt : Nat) (info : BolInfo),
      spec_nl_at_bol ab l = false →
      bol_total (read_bol_info_go ab ns nt info l) + (if ab then 0 else 1)
        = bol_total info + l.count '\n' + (if spec_at_bol ab l then 0 else 1)
  | [], ab, ns, nt, info, _ => by simp [read_bol_info_go, spec_at_bol]
  | c :: rest, ab, ns, nt, info, h => by
    cases ab with
    | true =>
      by_cases hsp : c = ' '
      · subst hsp
        rw [rb_step_space]
        have ih := read_bol_total_inv rest true (ns + 1) nt info
          (by simpa [spec_nl_at_bol] using h)
        simpa [spec_at_bol, List.count_cons] using ih
      · by_cases htb : c = '\t'
        · subst htb
          rw [rb_step_tab]
          have ih := read_bol_total_inv rest true ns (nt + 1) info
            (by simpa [spec_nl_at_bol] using h)
          simpa [spec_at_bol, List.count_cons] using ih
        · by_cases hnl : c = '\n'
          · subst hnl
            simp [spec_nl_at_bol, hsp, htb] at h
          · rw [rb_step_classify ns nt info c rest hsp htb]
            have ih := read_bol_total_inv rest false ns nt (bol_classify ns nt info)
              (by simpa [spec_nl_at_bol, hsp, htb, hnl] using h)
            have e1 := bol_classify_total ns nt info
            simp only [spec_at_bol, List.count_cons, hsp, htb, hnl] at ih ⊢
            simp [hnl] at ih ⊢
            omega
    | false =>
      by_cases hnl : c = '\n'
      · subst hnl
        rw [rb_step_nl_inline]
        have ih := read_bol_total_inv rest true 0 0 info
          (by simpa [spec_nl_at_bol] using h)
        simp only [spec_at_bol, List.count_cons] at ih ⊢
        simp at ih ⊢
        omega
      · rw [rb_step_other_inline ns nt info c rest hnl]
        have ih := read_bol_total_inv rest false ns nt info
          (by simpa [spec_nl_at_bol, hnl] using h)
        simp only [spec_at_bol, List.count_cons, hnl] at ih ⊢
        simp [hnl] at ih ⊢
        omega

/-- For a `Spaces` target the emitted run is the untabified buffer (also for
the empty buffer, where both are empty). -/
lemma wnb_emit_spaces_out (w : Nat) (rd : Bool) (s : List Char) (info : BolInfo) :
    (wnb_emit w rd false s info).1 = untabify w s := by
  by_cases h : s.length = 0
  · rw [List.length_eq_zero] at h
    subst h
    simp [wnb_emit, untabify, untabify_go]
  · simp [wnb_emit, h]

/-- For a `Tabs` target the emitted run is the tabified untabified buffer
(also for the empty buffer, where both are empty). -/
lemma wnb_emit_tabs_out (w : Nat) (rd : Bool) (s : List Char) (info : BolInfo) :
    (wnb_emit w rd true s info).1 = (tabify w rd (untabify w s)).1 := by
  by_cases h : s.length = 0
  · rw [List.length_eq_zero] at h
    subst h
    simp [wnb_emit, untabify, untabify_go, tabify, tabify_go]
  · simp [wnb_emit, h]

/-- For a `Spaces` target a non-empty buffer always classifies as `spaces`. -/
lemma wnb_emit_spaces_kind (w : Nat) (rd : Bool) (s : List Char) (info : BolInfo)
    (hs : s ≠ []) :
    (wnb_emit w rd false s info).2 = { info with spaces := info.spaces + 1 } := by
  unfold wnb_emit
  simp [List.length_eq_zero, hs]

/-- For a `Tabs` target a non-empty whitespace buffer classifies as `mixed`
exactly when the remainder is kept and non-zero (round-down off and expansion
length not a multiple of the tab size), as `tabs` otherwise. -/
lemma wnb_emit_tabs_kind (w : Nat) (rd : Bool) (s : List Char) (info : BolInfo)
    (hw : 0 < w) (hs : s ≠ []) (hws : ∀ c ∈ s, c = ' ' ∨ c = '\t') :
    (wnb_emit w rd true s info).2
      = if rd = false ∧ untabify_spec_cols w 0 s % w ≠ 0
        then { info with mixed := info.mixed + 1 }
        else { info with tabs := info.tabs + 1 } := by
  have hlen : ¬(s.length = 0) := by simpa [List.length_eq_zero] using hs
  have h2 := tabify_replicate w rd (untabify_spec_cols w 0 s) hw
  simp only [wnb_emit, hlen, if_false, untabify_replicate w s hws]
  rw [h2]
  cases rd with
  | false =>
    by_cases hmod : untabify_spec_cols w 0 s % w = 0 <;> simp [hmod]
  | true => simp

/-- With round-down on, `tabify` always reports a zero space remainder. -/
lemma tabify_go_rd_snd :
    ∀ (l : List Char) (w ns : Nat) (t : List Char),
      (tabify_go w true ns t l).2 = 0
  | [], w, ns, t => by
    simp only [tabify_go]
    split_ifs <;> simp_all
  | c :: rest, w, ns, t => by
    simp only [tabify_go]
    split_ifs <;> apply tabify_go_rd_snd

/-- For a `Spaces` target the emission step never touches `tabs` or `mixed`. -/
lemma wnb_emit_spaces_counts (w : Nat) (rd : Bool) (s : List Char) (info : BolInfo) :
    (wnb_emit w rd false s info).2.tabs = info.tabs
      ∧ (wnb_emit w rd false s info).2.mixed = info.mixed := by
  unfold wnb_emit
  split_ifs <;> simp_all

/-- For a `Tabs` target with round-down the emission step never touches
`mixed` (the remainder is always zero). -/
lemma wnb_emit_rd_true_mixed (w : Nat) (s : List Char) (info : BolInfo) :
    (wnb_emit w true true s info).2.mixed = info.mixed := by
  have hz : (tabify w true (untabify w s)).2 = 0 := by
    simpa [tabify] using tabify_go_rd_snd (untabify w s) w 0 []
  by_cases h : s.length = 0
  · simp [wnb_emit, h]
  · simp [wnb_emit, h, hz]

/-- For a `Spaces` target the rewrite loop never increments `tabs` or
`mixed`. -/
lemma wnb_go_spaces_counts (w : Nat) (rd : Bool) :
    ∀ (l : List Char) (ab : Bool) (s : List Char) (info : BolInfo),
      (write_new_bols_go w rd false ab s info l).info.tabs = info.tabs
        ∧ (write_new_bols_go w rd false ab s info l).info.mixed = info.mixed
  | [], ab, s, info => by simp [write_new_bols_go]
  | c :: rest, ab, s, info => by
    cases ab with
    | true =>
      by_cases hws : c = ' ' ∨ c = '\t'
      · rw [wnb_step_ws w rd false s info c rest hws]
        exact wnb_go_spaces_counts w rd rest true (s ++ [c]) info
      · push_neg at hws
        by_cases hnl : c = '\n'
        · subst hnl
          rw [wnb_step_nl_bol w rd false s info rest]
          have h1 := wnb_go_spaces_counts w rd rest true [] (wnb_emit w rd false s info).2
          have h2 := wnb_emit_spaces_counts w rd s info
          simp only []
          omega
        · rw [wnb_step_other_bol w rd false s info c rest hws.1 hws.2 hnl]
          have h1 := wnb_go_spaces_counts w rd rest false
            (if s.length = 0 then s else (wnb_emit w rd false s info).1)
            (wnb_emit w rd false s info).2
          have h2 := wnb_emit_spaces_counts w rd s info
          simp only []
          omega
    | false =>
      by_cases hnl : c = '\n'
      · subst hnl
        rw [wnb_step_nl_inline w rd false s info rest]
        have h1 := wnb_go_spaces_counts w rd rest true [] info
        simp only []
        omega
      · rw [wnb_step_other_inline w rd false s info c rest hnl]
        have h1 := wnb_go_spaces_counts w rd rest false s info
        simp only []
        omega

/-- For a `Tabs` target with round-down the rewrite loop never increments
`mixed`. -/
lemma wnb_go_rd_true_mixed (w : Nat) :
    ∀ (l : List Char) (ab : Bool) (s : List Char) (info : BolInfo),
      (write_new_bols_go w true true ab s info l).info.mixed = info.mixed
  | [], ab, s, info => by simp [write_new_bols_go]
  | c :: rest, ab, s, info => by
    cases ab with
    | true =>
      by_cases hws : c = ' ' ∨ c = '\t'
      · rw [wnb_step_ws w true true s info c rest hws]
        exact wnb_go_rd_true_mixed w rest true (s ++ [c]) info
      · push_neg at hws
        by_cases hnl : c = '\n'
        · subst hnl
          rw [wnb_step_nl_bol w true true s info rest]
          have h1 := wnb_go_rd_true_mixed w rest true [] (wnb_emit w true true s info).2
          have h2 := wnb_emit_rd_true_mixed w s info
          simp only []
          omega
        · rw [wnb_step_other_bol w true true s info c rest hws.1 hws.2 hnl]
          have h1 := wnb_go_rd_true_mixed w rest false
            (if s.length = 0 then s else (wnb_emit w true true s info).1)
            (wnb_emit w true true s info).2
          have h2 := wnb_emit_rd_true_mixed w s info
          simp only []
          omega
    | false =>
      by_cases hnl : c = '\n'
      · subst hnl
        rw [wnb_step_nl_inline w true true s info rest]
        have h1 := wnb_go_rd_true_mixed w rest true [] info
        simp only []
        omega
      · rw [wnb_step_other_inline w true true s info c rest hnl]
        have h1 := wnb_go_rd_true_mixed w rest false s info
        simp only []
        omega

/-- A single newline-terminated line: the whitespace run is buffered, then the
newline triggers emission, and the loop ends back at beginning of line with an
empty buffer. -/
lemma wnb_single_line (w : Nat) (rd it : Bool) (run : List Char) (info : BolInfo)
    (hrun : ∀ c ∈ run, c = ' ' ∨ c = '\t') :
    write_new_bols_go w rd it true [] info (run ++ ['\n'])
      = { out := (wnb_emit w rd it run info).1 ++ ['\n'],
          info := (wnb_emit w rd it run info).2, at_bol := true, s := [] } := by
  rw [wnb_go_ws_buffered w rd it run [] info ['\n'] hrun]
  simp only [List.nil_append]
  rw [wnb_step_nl_bol]
  simp [write_new_bols_go]

end Whitespace

open Whitespace

/-- C5: `get_common_eol` starts with LF, lets CRLF take over only on a strict
majority over `lf`, then lets CR win only on a strict majority over the
current leader; ties leave the earlier leader, so `{lf:3, crlf:3, cr:0}` gives
LF and `{lf:1, crlf:0, cr:2}` gives CR. -/
theorem get_common_eol_tie_break :
    (∀ i : EolInfo,
        i.get_common_eol
          = if i.cr > max i.lf i.crlf then EndOfLine.Cr
            else if i.crlf > i.lf then EndOfLine.CrLf
            else EndOfLine.Lf)
    ∧ (EolInfo.mk 0 3 3 7).get_common_eol = EndOfLine.Lf
    ∧ (EolInfo.mk 2 1 0 4).get_common_eol = EndOfLine.Cr := by
  refine ⟨?_, by decide, by decide⟩
  intro i
  simp only [EolInfo.get_common_eol]
  split_ifs <;> first | rfl | (exfalso; omega)

/-- C6: the scan counts endings with one-character lookahead — CR followed by
LF consumes both as one CRLF, a CR not followed by LF (a lone final CR
included) counts as CR, an LF not consumed by a CRLF counts as LF, anything
else is ignored — and `read_eol_info "\n\r\n\r"` is `{cr:1, lf:1, crlf:1,
lineCount:4}`. -/
theorem read_eol_info_lookahead :
    (∀ (info : EolInfo) (cs : List Char),
        read_eol_info_go info ('\r' :: '\n' :: cs)
          = read_eol_info_go
              { info with crlf := info.crlf + 1, num_lines := info.num_lines + 1 } cs)
    ∧ (∀ (info : EolInfo) (c : Char) (cs : List Char), c ≠ '\n' →
        read_eol_info_go info ('\r' :: c :: cs)
          = read_eol_info_go
              { info with cr := info.cr + 1, num_lines := info.num_lines + 1 } (c :: cs))
    ∧ (∀ info : EolInfo,
        read_eol_info_go info ['\r']
          = { info with cr := info.cr + 1, num_lines := info.num_lines + 1 })
    ∧ (∀ (info : EolInfo) (cs : List Char),
        read_eol_info_go info ('\n' :: cs)
          = read_eol_info_go
              { info with lf := info.lf + 1, num_lines := info.num_lines + 1 } cs)
    ∧ (∀ (info : EolInfo) (c : Char) (cs : List Char), c ≠ '\r' → c ≠ '\n' →
        read_eol_info_go info (c :: cs) = read_eol_info_go info cs)
    ∧ read_eol_info "\n\r\n\r".toList = { cr := 1, lf := 1, crlf := 1, num_lines := 4 } := by
  refine ⟨?_, ?_, ?_, ?_, ?_, by decide⟩
  · intro info cs
    rw [read_eol_info_go.eq_def]
    simp
  · intro info c cs h
    rw [read_eol_info_go.eq_def]
    simp [h]
  · intro info
    rw [read_eol_info_go.eq_def]
    simp [read_eol_info_go]
  · intro info cs
    rw [read_eol_info_go.eq_def]
    simp
  · intro info c cs h1 h2
    rw [read_eol_info_go.eq_def]
    simp [h1, h2]

/-- Witness for C6: the lookahead equations applied at concrete inputs
(a CR followed by a non-LF, and an ignored ordinary character). -/
theorem read_eol_info_lookahead_witness :
    read_eol_info_go ⟨0, 0, 0, 1⟩ ['\r', 'a']
      = read_eol_info_go ⟨0 + 1, 0, 0, 1 + 1⟩ ['a']
    ∧ read_eol_info_go ⟨0, 0, 0, 1⟩ ['a'] = read_eol_info_go ⟨0, 0, 0, 1⟩ [] := by
  constructor
  · have h := read_eol_info_lookahead.2.1 ⟨0, 0, 0, 1⟩ 'a' [] (by decide)
    simpa using h
  · exact read_eol_info_lookahead.2.2.2.2.1 ⟨0, 0, 0, 1⟩ 'a' [] (by decide) (by decide)

/-- C7: for every input the scan's line count equals one plus the total number
of recognized endings. -/
theorem read_eol_info_line_count_invariant (input : List Char) :
    (read_eol_info input).num_lines
      = 1 + (read_eol_info input).cr + (read_eol_info input).lf
        + (read_eol_info input).crlf := by
  have h := read_eol_info_go_sum input ⟨0, 0, 0, 1⟩
  simpa [read_eol_info] using h

/-- C2: the rewrite recognizes endings exactly as the scan does (CR-LF pairs
consumed as one CRLF), writes the target kind's byte sequence in place of each
ending, copies every other character verbatim, and returns the scan's line
count convention; `write_new_eols "abc\n\r\r\n" CrLf` yields line count 4 and
output `"abc\r\n\r\n\r\n"`. -/
theorem write_new_eols_rewrite :
    (∀ (nl : List Char) (n : Nat) (cs : List Char),
        write_new_eols_go nl n ('\r' :: '\n' :: cs)
          = (nl ++ (write_new_eols_go nl (n + 1) cs).1, (write_new_eols_go nl (n + 1) cs).2))
    ∧ (∀ (nl : List Char) (n : Nat) (c : Char) (cs : List Char), c ≠ '\n' →
        write_new_eols_go nl n ('\r' :: c :: cs)
          = (nl ++ (write_new_eols_go nl (n + 1) (c :: cs)).1,
             (write_new_eols_go nl (n + 1) (c :: cs)).2))
    ∧ (∀ (nl : List Char) (n : Nat), write_new_eols_go nl n ['\r'] = (nl, n + 1))
    ∧ (∀ (nl : List Char) (n : Nat) (cs : List Char),
        write_new_eols_go nl n ('\n' :: cs)
          = (nl ++ (write_new_eols_go nl (n + 1) cs).1, (write_new_eols_go nl (n + 1) cs).2))
    ∧ (∀ (nl : List Char) (n : Nat) (c : Char) (cs : List Char), c ≠ '\r' → c ≠ '\n' →
        write_new_eols_go nl n (c :: cs)
          = (c :: (write_new_eols_go nl n cs).1, (write_new_eols_go nl n cs).2))
    ∧ (∀ (input : List Char) (k : EndOfLine),
        (write_new_eols input k).2 = (read_eol_info input).num_lines)
    ∧ write_new_eols "abc\n\r\r\n".toList EndOfLine.CrLf = ("abc\r\n\r\n\r\n".toList, 4) := by
  refine ⟨?_, ?_, ?_, ?_, ?_, ?_, by decide⟩
  · intro nl n cs
    rw [write_new_eols_go.eq_def]
    simp
  · intro nl n c cs h
    rw [write_new_eols_go.eq_def]
    simp [h]
  · intro nl n
    rw [write_new_eols_go.eq_def]
    simp [write_new_eols_go]
  · intro nl n cs
    rw [write_new_eols_go.eq_def]
    simp
  · intro nl n c cs h1 h2
    rw [write_new_eols_go.eq_def]
    simp [h1, h2]
  · intro input k
    have h := write_new_eols_go_num_lines (eol_chars k) 1 input ⟨0, 0, 0, 1⟩
    simp only [write_new_eols, read_eol_info]
    simp at h
    omega

/-- Witness for C2: the ending-recognition equations applied at concrete
inputs. -/
theorem write_new_eols_rewrite_witness :
    write_new_eols_go ['\n'] 1 ['\r', 'a']
      = (['\n'] ++ (write_new_eols_go ['\n'] 2 ['a']).1, (write_new_eols_go ['\n'] 2 ['a']).2)
    ∧ write_new_eols_go ['\n'] 1 ['a']
      = ('a' :: (write_new_eols_go ['\n'] 1 []).1, (write_new_eols_go ['\n'] 1 []).2) := by
  constructor
  · have h := write_new_eols_rewrite.2.1 ['\n'] 1 'a' [] (by decide)
    simpa using h
  · exact write_new_eols_rewrite.2.2.2.2.1 ['\n'] 1 'a' [] (by decide) (by decide)

/-- C1: `write_new_bols` rewrites each line's leading-whitespace run in two
stages — untabify expands each tab to `tabWidth - (col mod tabWidth)` spaces
(`col` the length of the expansion built so far), then, only for a `Tabs`
target, tabify emits one tab per `tabWidth` consumed spaces and keeps or
drops the sub-width remainder according to `roundDown`, while a `Spaces`
target emits the untabified run as-is — and
`write_new_bols "\ta\n \t x\n\t\t\n" (Spaces 2)` outputs
`"  a\n   x\n    \n"`. -/
theorem write_new_bols_two_stage :
    (∀ (w : Nat) (s : List Char), (∀ c ∈ s, c = ' ' ∨ c = '\t') →
        untabify w s = List.replicate (untabify_spec_cols w 0 s) ' ')
    ∧ (∀ (w : Nat) (rd : Bool) (n : Nat), 0 < w →
        tabify w rd (List.replicate n ' ')
          = (List.replicate (n / w) '\t'
               ++ (if rd = false then List.replicate (n % w) ' ' else []),
             if rd = false then n % w else 0))
    ∧ (∀ (ts : Nat) (run : List Char), (∀ c ∈ run, c = ' ' ∨ c = '\t') →
        (write_new_bols (run ++ ['\n']) (BeginningOfLine.Spaces ts)).1
          = untabify (max 1 ts) run ++ ['\n'])
    ∧ (∀ (ts : Nat) (rd : Bool) (run : List Char), (∀ c ∈ run, c = ' ' ∨ c = '\t') →
        (write_new_bols (run ++ ['\n']) (BeginningOfLine.Tabs ts rd)).1
          = (tabify (max 1 ts) rd (untabify (max 1 ts) run)).1 ++ ['\n'])
    ∧ write_new_bols "\ta\n \t x\n\t\t\n".toList (BeginningOfLine.Spaces 2)
        = ("  a\n   x\n    \n".toList, ⟨0, 3, 0, 0⟩) := by
  refine ⟨untabify_replicate, tabify_replicate, ?_, ?_, by decide⟩
  · intro ts run h
    simp only [write_new_bols, write_new_bols_state]
    rw [wnb_single_line (max 1 ts) false false run _ h]
    simp [wnb_emit_spaces_out]
  · intro ts rd run h
    simp only [write_new_bols, write_new_bols_state]
    rw [wnb_single_line (max 1 ts) rd true run _ h]
    simp [wnb_emit_tabs_out]

/-- Witness for C1: the two stages applied at concrete runs. -/
theorem write_new_bols_two_stage_witness :
    untabify 2 ['\t', ' '] = List.replicate (untabify_spec_cols 2 0 ['\t', ' ']) ' '
    ∧ tabify 2 false (List.replicate 5 ' ')
        = (List.replicate (5 / 2) '\t'
             ++ (if (false : Bool) = false then List.replicate (5 % 2) ' ' else []),
           if (false : Bool) = false then 5 % 2 else 0)
    ∧ (write_new_bols ([' '] ++ ['\n']) (BeginningOfLine.Spaces 2)).1
        = untabify (max 1 2) [' '] ++ ['\n']
    ∧ (write_new_bols (['\t'] ++ ['\n']) (BeginningOfLine.Tabs 2 false)).1
        = (tabify (max 1 2) false (untabify (max 1 2) ['\t'])).1 ++ ['\n'] :=
  ⟨write_new_bols_two_stage.1 2 ['\t', ' '] (by decide),
   write_new_bols_two_stage.2.1 2 false 5 (by decide),
   write_new_bols_two_stage.2.2.1 2 [' '] (by decide),
   write_new_bols_two_stage.2.2.2.1 2 false ['\t'] (by decide)⟩

/-- Counterexample to C3: on `" a\n"` with a `Tabs 2 false` target the
emitted run is the single space `" "` — it contains no tab at all — yet
`mixed` is incremented, not `spaces`; and with `Tabs 2 true` the emitted
run is empty yet `tabs` is incremented, not `none`.  The classification is
therefore not determined by the content of the emitted run. -/
theorem write_new_bols_classification_counterexample :
    write_new_bols " a\n".toList (BeginningOfLine.Tabs 2 false)
      = (" a\n".toList, ⟨0, 0, 0, 1⟩)
    ∧ '\t' ∉ (write_new_bols " a\n".toList (BeginningOfLine.Tabs 2 false)).1
    ∧ write_new_bols " a\n".toList (BeginningOfLine.Tabs 2 true)
      = ("a\n".toList, ⟨0, 0, 1, 0⟩) :=
  ⟨by decide, by decide, by decide⟩

/-- C3 as amended: the classification is determined by the buffered run and
the target, not by the emitted run — an empty buffer counts `none`; a
`Spaces` target counts `spaces` for every non-empty buffer; a `Tabs` target
counts `mixed` exactly when `roundDown` is false and the untabified length is
not a multiple of the tab width (a non-zero space remainder) and `tabs`
otherwise; consequently a `Spaces` target never increments `tabs` or `mixed`
and a `Tabs` target with `roundDown` never increments `mixed`. -/
theorem write_new_bols_classification :
    (∀ b : BeginningOfLine, (write_new_bols ['\n'] b).2 = ⟨1, 0, 0, 0⟩)
    ∧ (∀ (ts : Nat) (run : List Char), (∀ c ∈ run, c = ' ' ∨ c = '\t') → run ≠ [] →
        (write_new_bols (run ++ ['\n']) (BeginningOfLine.Spaces ts)).2 = ⟨0, 1, 0, 0⟩)
    ∧ (∀ (ts : Nat) (rd : Bool) (run : List Char),
        (∀ c ∈ run, c = ' ' ∨ c = '\t') → run ≠ [] →
        (write_new_bols (run ++ ['\n']) (BeginningOfLine.Tabs ts rd)).2
          = if rd = false ∧ untabify_spec_cols (max 1 ts) 0 run % max 1 ts ≠ 0
            then ⟨0, 0, 0, 1⟩ else ⟨0, 0, 1, 0⟩)
    ∧ (∀ (input : List Char) (ts : Nat),
        (write_new_bols input (BeginningOfLine.Spaces ts)).2.tabs = 0
          ∧ (write_new_bols input (BeginningOfLine.Spaces ts)).2.mixed = 0)
    ∧ (∀ (input : List Char) (ts : Nat),
        (write_new_bols input (BeginningOfLine.Tabs ts true)).2.mixed = 0) := by
  refine ⟨?_, ?_, ?_, ?_, ?_⟩
  · intro b
    cases b with
    | Tabs t r =>
      simp only [write_new_bols, write_new_bols_state]
      rw [show ['\n'] = ([] : List Char) ++ ['\n'] from rfl,
          wnb_single_line (max 1 t) r true [] _ (by simp)]
      simp [wnb_emit]
    | Spaces t =>
      simp only [write_new_bols, write_new_bols_state]
      rw [show ['\n'] = ([] : List Char) ++ ['\n'] from rfl,
          wnb_single_line (max 1 t) false false [] _ (by simp)]
      simp [wnb_emit]
  · intro ts run h hne
    simp only [write_new_bols, write_new_bols_state]
    rw [wnb_single_line (max 1 ts) false false run _ h]
    simp [wnb_emit_spaces_kind (max 1 ts) false run _ hne]
  · intro ts rd run h hne
    simp only [write_new_bols, write_new_bols_state]
    rw [wnb_single_line (max 1 ts) rd true run _ h]
    have hw : 0 < max 1 ts := by omega
    simp only [wnb_emit_tabs_kind (max 1 ts) rd run _ hw hne h]
  · intro input ts
    simp only [write_new_bols, write_new_bols_state]
    exact wnb_go_spaces_counts (max 1 ts) false input true [] ⟨0, 0, 0, 0⟩
  · intro input ts
    simp only [write_new_bols, write_new_bols_state]
    exact wnb_go_rd_true_mixed (max 1 ts) input true [] ⟨0, 0, 0, 0⟩

/-- Witness for C3 as amended: the classification rules applied at concrete
runs. -/
theorem write_new_bols_classification_witness :
    (write_new_bols ([' ', ' '] ++ ['\n']) (BeginningOfLine.Spaces 3)).2 = ⟨0, 1, 0, 0⟩
    ∧ (write_new_bols ([' '] ++ ['\n']) (BeginningOfLine.Tabs 2 false)).2
        = if (false : Bool) = false ∧ untabify_spec_cols (max 1 2) 0 [' '] % max 1 2 ≠ 0
          then ⟨0, 0, 0, 1⟩ else ⟨0, 0, 1, 0⟩ :=
  ⟨write_new_bols_classification.2.1 3 [' ', ' '] (by decide) (by decide),
   write_new_bols_classification.2.2.1 2 false [' '] (by decide) (by decide)⟩

/-- Counterexample to C4: on `"\n\n"` the scan classifies one line but the
rewrite classifies two, because a newline at beginning of line makes the scan
leave beginning-of-line mode while the rewrite stays in it. -/
theorem read_write_bol_counts_counterexample :
    bol_total (read_bol_info "\n\n".toList) = 1
    ∧ bol_total (write_new_bols "\n\n".toList (BeginningOfLine.Spaces 2)).2 = 2 :=
  ⟨by decide, by decide⟩

/-- C4 as amended: the scan and the rewrite share the beginning-of-line
transitions except on a newline at beginning of line — there the scan
classifies the run and leaves beginning-of-line mode, while the rewrite
emits and classifies the run but stays at beginning of line with a cleared
buffer; for every input in which no newline is consumed at beginning of line
the two classify the same number of lines. -/
theorem read_write_bol_state_machines :
    (∀ (ns nt : Nat) (info : BolInfo) (rest : List Char),
        read_bol_info_go true ns nt info ('\n' :: rest)
          = read_bol_info_go false ns nt (bol_classify ns nt info) rest)
    ∧ (∀ (w : Nat) (rd it : Bool) (s : List Char) (info : BolInfo) (rest : List Char),
        write_new_bols_go w rd it true s info ('\n' :: rest)
          = { write_new_bols_go w rd it true [] (wnb_emit w rd it s info).2 rest with
                out := (wnb_emit w rd it s info).1
                  ++ '\n' :: (write_new_bols_go w rd it true []
                        (wnb_emit w rd it s info).2 rest).out })
    ∧ (∀ (input : List Char) (b : BeginningOfLine),
        spec_nl_at_bol true input = false →
        bol_total (read_bol_info input) = bol_total (write_new_bols input b).2) := by
  refine ⟨?_, ?_, ?_⟩
  · intro ns nt info rest
    exact rb_step_classify ns nt info '\n' rest (by decide) (by decide)
  · intro w rd it s info rest
    exact wnb_step_nl_bol w rd it s info rest
  · intro input b h
    cases b with
    | Tabs t r =>
      have hc := read_write_total_couple (max 1 t) r true input true 0 0 []
        ⟨0, 0, 0, 0⟩ ⟨0, 0, 0, 0⟩ h
      simp only [write_new_bols, write_new_bols_state, read_bol_info]
      simp [bol_total] at hc ⊢
      omega
    | Spaces t =>
      have hc := read_write_total_couple (max 1 t) false false input true 0 0 []
        ⟨0, 0, 0, 0⟩ ⟨0, 0, 0, 0⟩ h
      simp only [write_new_bols, write_new_bols_state, read_bol_info]
      simp [bol_total] at hc ⊢
      omega

/-- Witness for C4 as amended: a concrete input with no newline at beginning
of line on which the scan and the rewrite agree. -/
theorem read_write_bol_state_machines_witness :
    spec_nl_at_bol true "a\n b\n".toList = false
    ∧ bol_total (read_bol_info "a\n b\n".toList)
        = bol_total (write_new_bols "a\n b\n".toList (BeginningOfLine.Spaces 2)).2 :=
  ⟨by decide,
   read_write_bol_state_machines.2.2 "a\n b\n".toList (BeginningOfLine.Spaces 2) (by decide)⟩

/-- Counterexample to C8: in `"\n\n"` both lines are newline-terminated, so
the claimed invariant demands a classification total of 2, but the scan
records only 1 (the second line is skipped because the first newline left
beginning-of-line mode). -/
theorem read_bol_info_invariant_counterexample :
    "\n\n".toList.count '\n' = 2
    ∧ bol_total (read_bol_info "\n\n".toList) = 1 :=
  ⟨by decide, by decide⟩

/-- C8 as amended: on inputs in which no newline is consumed at beginning of
line, exactly one counter is recorded per terminated line plus one more when
the trailing segment reaches a non-whitespace character (the scan ends
in-line); a final whitespace run cut off by end of stream is dropped. -/
theorem read_bol_info_classified_total (input : List Char)
    (h : spec_nl_at_bol true input = false) :
    bol_total (read_bol_info input)
      = input.count '\n' + (if spec_at_bol true input then 0 else 1) := by
  have hi := read_bol_total_inv input true 0 0 ⟨0, 0, 0, 0⟩ h
  simpa [read_bol_info, bol_total] using hi

/-- Witness for C8 as amended: a concrete input ending in-line. -/
theorem read_bol_info_classified_total_witness :
    spec_nl_at_bol true " x\ny".toList = false
    ∧ bol_total (read_bol_info " x\ny".toList)
        = " x\ny".toList.count '\n' + (if spec_at_bol true " x\ny".toList then 0 else 1) :=
  ⟨by decide, read_bol_info_classified_total " x\ny".toList (by decide)⟩

/-- Counterexample to C9: `get_common_bol` does not clamp the supplied tab
width — with tab width 0 it returns an `IndentationKind` carrying 0. -/
theorem get_common_bol_no_clamp_counterexample :
    BolInfo.get_common_bol ⟨0, 0, 1, 0⟩ 0 true = BeginningOfLine.Tabs 0 true
    ∧ BolInfo.get_common_bol ⟨0, 1, 0, 0⟩ 0 false = BeginningOfLine.Spaces 0 :=
  ⟨by decide, by decide⟩

/-- C9 as amended: only `write_new_bols` coerces a tab width of 0 (to 1, via
`max`), behaving exactly as with tab width 1 and never taking a remainder
modulo 0; `get_common_bol` passes the supplied tab width through unchanged. -/
theorem write_new_bols_tab_width_clamp :
    (∀ (input : List Char) (rd : Bool),
        write_new_bols input (BeginningOfLine.Tabs 0 rd)
          = write_new_bols input (BeginningOfLine.Tabs 1 rd))
    ∧ (∀ input : List Char,
        write_new_bols input (BeginningOfLine.Spaces 0)
          = write_new_bols input (BeginningOfLine.Spaces 1))
    ∧ (∀ (i : BolInfo) (ts : Nat) (rd : Bool),
        BolInfo.get_common_bol i ts rd
          = if i.tabs > i.spaces then BeginningOfLine.Tabs ts rd
            else BeginningOfLine.Spaces ts) :=
  ⟨fun _ _ => rfl, fun _ => rfl, fun _ _ _ => rfl⟩

/-- C10: when the stream ends in one or more space/tab characters while the
rewrite is still at beginning of line, the buffered run is never written:
the output of the extended input equals the output of the input without the
trailing run, so those characters are absent from the output. -/
theorem write_new_bols_drops_trailing_run (input run : List Char)
    (b : BeginningOfLine) (_hne : run ≠ [])
    (hws : ∀ c ∈ run, c = ' ' ∨ c = '\t')
    (hab : (write_new_bols_state input b).at_bol = true) :
    (write_new_bols (input ++ run) b).1 = (write_new_bols input b).1 := by
  cases b with
  | Tabs t r =>
    simp only [write_new_bols, write_new_bols_state] at hab ⊢
    exact wnb_go_out_stable (max 1 t) r true run hws input true [] ⟨0, 0, 0, 0⟩ hab
  | Spaces t =>
    simp only [write_new_bols, write_new_bols_state] at hab ⊢
    exact wnb_go_out_stable (max 1 t) false false run hws input true [] ⟨0, 0, 0, 0⟩ hab

/-- Witness for C10: the trailing space of `"x\n "` is absent from the
output. -/
theorem write_new_bols_drops_trailing_run_witness :
    (write_new_bols ("x\n".toList ++ [' ']) (BeginningOfLine.Spaces 4)).1
      = (write_new_bols "x\n".toList (BeginningOfLine.Spaces 4)).1 :=
  write_new_bols_drops_trailing_run "x\n".toList [' '] (BeginningOfLine.Spaces 4)
    (by decide) (by decide) (by decide)
